import Mathlib

/-!
# fast_proxy: the per-connection state machine of `src/main.c`

A shallow embedding of `main.c` (a libevent forward proxy) and theorems about
its request parser, its connect transition, the relay pump and teardown.

Modelling conventions.

* A byte is a natural number; buffers are lists of bytes.  The parser only
  classifies and compares bytes, so nothing depends on the bound 255.
* `evbuffer_pullup` hands the C string functions a pointer to the buffered
  bytes, with no terminator behind them: `strstr` and `sscanf` read on into
  whatever the heap holds there.  The environment supplies those bytes
  (`Oracle.heap`); the string the parser sees is `cstr (buf ++ o.heap)`, the
  bytes up to the first NUL, which comes at the latest right after `o.heap`.
* libc and libevent calls are modelled by their documented results.  The
  results the environment decides (does `getaddrinfo` succeed, does
  `bufferevent_socket_connect` succeed, what an uninitialised local and the
  memory behind the buffer hold) are supplied by an `Oracle`.  Allocation
  never fails.
* `bufferevent.output` is the sequence of bytes queued on the channel for
  transmission, in queueing order; flushing to the socket is not modelled.
* `printf`/`fprintf` diagnostics are not modelled.
* A destroyed context is `none`; the calls that released its parts are
  recorded as `Effect`s, as are the calls to the resolver and the connector.
* A callback that would dereference NULL returns `none`.

Layout: the libc and libevent fragments, the functions of `main.c`, the event
loop as seen from one connection, then helper lemmas, the cases in which the
parser extracts the intended target, the scenarios of the specification, and
the theorems for the claims C1 to C10.
-/

namespace FastProxy

/-- One octet of a buffer or C string. -/
abbrev Byte := Nat

/-- The bytes of an ASCII string literal. -/
def bytes (s : String) : List Byte := s.toList.map Char.toNat

/-! ## libc -/

/-- C `isspace` in the "C" locale: space, `\t`, `\n`, `\v`, `\f`, `\r`. -/
def isspace (c : Byte) : Bool := c == 32 || (9 ≤ c && c ≤ 13)

/-- C `isdigit`. -/
def isdigit (c : Byte) : Bool := 48 ≤ c && c ≤ 57

/-- The C string stored at the start of `mem`: the bytes before the first NUL. -/
def cstr (mem : List Byte) : List Byte := mem.takeWhile (fun c => c != 0)

/-- C `strstr`: the tail of `hay` starting at the first occurrence of `needle`
(the returned pointer), or `none` (NULL). -/
def strstr : List Byte → List Byte → Option (List Byte)
  | [], needle => if needle.isEmpty then some [] else none
  | c :: hay, needle =>
    if needle.isPrefixOf (c :: hay) then some (c :: hay) else strstr hay needle

/-- C `strchr` for a non-NUL character: the tail of `s` starting at the first
`c`, or `none` (NULL). -/
def strchr : List Byte → Byte → Option (List Byte)
  | [], _ => none
  | x :: s, c => if x == c then some (x :: s) else strchr s c

/-- Conversion of a `long` to C `int` (32-bit two's complement narrowing). -/
def to_int (v : Int) : Int := (v + 2147483648) % 4294967296 - 2147483648

/-- The result of `strtol` for the exact value `v` of the subject sequence:
saturated at `LONG_MAX` and `LONG_MIN` (64-bit `long`). -/
def strtol_saturate (v : Int) : Int :=
  if 9223372036854775807 < v then 9223372036854775807
  else if v < -9223372036854775808 then -9223372036854775808
  else v

/-- Value of a run of decimal digits, most significant first. -/
def digits_value (ds : List Byte) : Nat := ds.foldl (fun acc d => 10 * acc + (d - 48)) 0

/-- The `%d` conversion of `scanf` (also the subject sequence of `strtol` in
base 10): skip white space, an optional sign, then at least one digit.
`none` is a matching failure.  For values outside the `int` range ISO C
leaves the result undefined; the embedding follows glibc, which converts with
`strtol` (saturating) and narrows the `long` to `int`. -/
def scan_d (s : List Byte) : Option Int :=
  let t := s.dropWhile isspace
  let neg := t.head? == some 45
  let u := if t.head? == some 45 || t.head? == some 43 then t.drop 1 else t
  let ds := u.takeWhile isdigit
  if ds.isEmpty then none
  else some (to_int (strtol_saturate
    (if neg then - (digits_value ds : Int) else (digits_value ds : Int))))

/-- C `atoi`, that is `(int) strtol(s, NULL, 10)`: `0` when there is no
number. -/
def atoi (s : List Byte) : Int := (scan_d s).getD 0

/-- The `%<width>s` conversion of `scanf`: skip white space, then read up to
`width` non-white-space bytes.  `none` is an input failure (end of string
reached before any byte was read): the destination is not written. -/
def scan_s (width : Nat) (s : List Byte) : Option (List Byte) :=
  let t := s.dropWhile isspace
  if t.isEmpty then none
  else some ((t.takeWhile (fun c => !isspace c)).take width)

/-- Matching of ordinary format characters by `scanf`: each must equal the
next input byte.  Returns the remaining input. -/
def scan_literal : List Byte → List Byte → Option (List Byte)
  | [], s => some s
  | _ :: _, [] => none
  | f :: fmt, c :: s => if f == c then scan_literal fmt s else none

/-- The call `sscanf(data, "CONNECT %255[^:]%*[:]%d", host, &port)`: the
values assigned to `host` and to `port`, each `none` when the conversion was
not reached or failed (the destination then keeps its old content).

Directives in order: the literal `CONNECT`; white space (any amount, also
none); `%255[^:]`, a non-empty run of at most 255 bytes other than `:`;
`%*[:]`, a non-empty run of `:` that is discarded; `%d`. -/
def sscanf_CONNECT (data : List Byte) : Option (List Byte) × Option Int :=
  match scan_literal (bytes "CONNECT") data with
  | none => (none, none)
  | some r1 =>
    let r2 := r1.dropWhile isspace
    let h := (r2.takeWhile (fun c => c != 58)).take 255
    if h.isEmpty then (none, none)
    else
      let r3 := r2.drop h.length
      let colons := r3.takeWhile (fun c => c == 58)
      if colons.isEmpty then (some h, none)
      else (some h, scan_d (r3.drop colons.length))

/-- Decimal rendering of a natural number. -/
def fmt_nat (n : Nat) : List Byte := (Nat.toDigits 10 n).map Char.toNat

/-- The `%d` conversion of `printf`. -/
def fmt_d (v : Int) : List Byte :=
  if v < 0 then 45 :: fmt_nat v.natAbs else fmt_nat v.natAbs

/-- The call `snprintf(port_str, sizeof(port_str), "%d", port)` with
`char port_str[6]`: at most five bytes are stored before the terminator. -/
def snprintf_port_str (port : Int) : List Byte := (fmt_d port).take 5

/-! ## libevent -/

/-- A `struct bufferevent`: its input and output `evbuffer`s. -/
structure bufferevent where
  input : List Byte
  output : List Byte
  deriving DecidableEq, Repr

/-- The call `bufferevent_socket_new`: a channel with empty buffers. -/
def bufferevent_socket_new : bufferevent := { input := [], output := [] }

/-- Flag `BEV_EVENT_EOF` of `<event2/bufferevent.h>`. -/
def BEV_EVENT_EOF : Nat := 0x10

/-- Flag `BEV_EVENT_ERROR` of `<event2/bufferevent.h>`. -/
def BEV_EVENT_ERROR : Nat := 0x20

/-- Which of the two channels of a context a callback was registered on. -/
inductive Channel where
  | client
  | server
  deriving DecidableEq, Repr

/-- Calls with an effect outside the context, in program order. -/
inductive Effect where
  /-- The call `getaddrinfo(node, service, ...)`. -/
  | getaddrinfo (node service : List Byte)
  /-- The call `bufferevent_socket_connect` on the new server channel. -/
  | socket_connect
  /-- The call `bufferevent_free` on a channel, with the channel as it was. -/
  | bufferevent_free (which : Channel) (bev : bufferevent)
  /-- The call `evbuffer_free(conn->request_buffer)`, with its content. -/
  | evbuffer_free (buf : List Byte)
  /-- The call `free(conn)`. -/
  | free
  deriving DecidableEq, Repr

/-! ## main.c -/

/-- The record `proxy_conn_t`.  `client_bev` and `request_buffer` are set to
fresh objects by `accept_cb` and never reassigned, so only `server_bev` can be
NULL (`none`). -/
structure proxy_conn where
  client_bev : bufferevent
  server_bev : Option bufferevent
  request_buffer : List Byte
  host : List Byte
  port : Int
  connected : Int
  ssl : Int
  deriving DecidableEq, Repr

/-- What the environment decides during one `client_read_cb` call. -/
structure Oracle where
  /-- Whether `getaddrinfo` returns 0. -/
  resolves : Bool
  /-- Whether `bufferevent_socket_connect` returns a non-negative value. -/
  connects : Bool
  /-- The C string held by the uninitialised local `method` on entry. -/
  method_init : List Byte
  /-- The bytes that follow the pulled-up buffer in memory, as far as a
  string scan can read them. -/
  heap : List Byte
  deriving DecidableEq, Repr

/-- Result of a callback: the context (`none` once freed) and the external
calls it made. -/
structure Outcome where
  conn : Option proxy_conn
  effects : List Effect
  deriving DecidableEq, Repr

/-- The function `close_connection`: the calls that release the context. -/
def close_connection (conn : proxy_conn) : List Effect :=
  [Effect.bufferevent_free Channel.client conn.client_bev]
  ++ (match conn.server_bev with
      | some s => [Effect.bufferevent_free Channel.server s]
      | none => [])
  ++ [Effect.evbuffer_free conn.request_buffer]
  ++ [Effect.free]

/-- The function `server_read_cb`: move the server channel's input to the end
of the client channel's output.  `none` when there is no server channel (the
callback is only registered on one). -/
def server_read_cb (conn : proxy_conn) : Option proxy_conn :=
  match conn.server_bev with
  | none => none
  | some bev =>
    some { conn with
      client_bev := { conn.client_bev with output := conn.client_bev.output ++ bev.input }
      server_bev := some { bev with input := [] } }

/-- The function `event_cb`; `bev` is ignored as in the source. -/
def event_cb (_bev : Channel) (events : Nat) (conn : proxy_conn) : Outcome :=
  if events &&& (BEV_EVENT_ERROR ||| BEV_EVENT_EOF) ≠ 0 then
    { conn := none, effects := close_connection conn }
  else
    { conn := some conn, effects := [] }

/-- The function `connect_to_server`.  The result of
`bufferevent_socket_connect` is not inspected here. -/
def connect_to_server (o : Oracle) (conn : proxy_conn) (hostname : List Byte) (port : Int) :
    Outcome :=
  let port_str := snprintf_port_str port
  if !o.resolves then
    { conn := none
      effects := Effect.getaddrinfo hostname port_str :: close_connection conn }
  else
    let server_bev := bufferevent_socket_new
    let server_bev := { server_bev with output := server_bev.output ++ conn.request_buffer }
    { conn := some { conn with
        server_bev := some server_bev
        request_buffer := []
        connected := 1 }
      effects := [Effect.getaddrinfo hostname port_str, Effect.socket_connect] }

/-- The 39 bytes written to the client when a tunnel is set up. -/
def established : List Byte := bytes "HTTP/1.1 200 Connection established\r\n\r\n"

/-- The function `client_read_cb`.  `none` is a NULL dereference: the relay
branch without a server channel, or `strstr` on the NULL that
`evbuffer_pullup` returns for an empty buffer. -/
def client_read_cb (o : Oracle) (conn : proxy_conn) : Option Outcome :=
  let input := conn.client_bev.input
  if conn.connected = 0 then
    -- evbuffer_add_buffer(conn->request_buffer, input)
    let conn := { conn with
      request_buffer := conn.request_buffer ++ input
      client_bev := { conn.client_bev with input := [] } }
    let len := conn.request_buffer.length
    -- evbuffer_pullup returns NULL when asked for 0 bytes
    if len = 0 then none
    else
    -- the returned memory is not terminated: the scans read on into the heap
    let data := cstr (conn.request_buffer ++ o.heap)
    match strstr data (bytes "\r\n\r\n") with
    | none => some { conn := some conn, effects := [] }
    | some _ =>
      let method := (scan_s 7 data).getD o.method_init
      if method = bytes "CONNECT" then
        let r := sscanf_CONNECT data
        let conn := { conn with host := r.1.getD conn.host, port := r.2.getD conn.port }
        let conn := { conn with port := if conn.port = 0 then 443 else conn.port }
        let port_str := snprintf_port_str conn.port
        if !o.resolves then
          some { conn := none
                 effects := Effect.getaddrinfo conn.host port_str :: close_connection conn }
        else
          let conn := { conn with server_bev := some bufferevent_socket_new }
          if !o.connects then
            some { conn := none
                   effects := [Effect.getaddrinfo conn.host port_str, Effect.socket_connect]
                     ++ close_connection conn }
          else
            let conn := { conn with connected := 1, ssl := 1 }
            let conn := { conn with
              client_bev := { conn.client_bev with
                output := conn.client_bev.output ++ established.take 39 } }
            let conn := { conn with request_buffer := conn.request_buffer.drop len }
            some { conn := some conn
                   effects := [Effect.getaddrinfo conn.host port_str, Effect.socket_connect] }
      else
        match strstr data (bytes "Host:") with
        | none => some { conn := none, effects := close_connection conn }
        | some host_header =>
          let host_header := (host_header.drop 5).dropWhile (fun c => c == 32)
          let conn := { conn with host := (scan_s 255 host_header).getD conn.host }
          let conn :=
            match strchr conn.host 58 with
            | some colon =>
              { conn with
                host := conn.host.takeWhile (fun c => c != 58)
                port := atoi (colon.drop 1) }
            | none => { conn with port := 80 }
          some (connect_to_server o conn conn.host conn.port)
  else
    match conn.server_bev with
    | none => none
    | some server_bev =>
      some { conn := some { conn with
               server_bev := some { server_bev with output := server_bev.output ++ input }
               client_bev := { conn.client_bev with input := [] } }
             effects := [] }

/-- The function `accept_cb`: the context of a freshly accepted connection
(`calloc` zeroes every field; the two buffers are new and empty). -/
def accept_cb : proxy_conn :=
  { client_bev := bufferevent_socket_new
    server_bev := none
    request_buffer := []
    host := []
    port := 0
    connected := 0
    ssl := 0 }

/-! ## The event loop seen from one connection -/

/-- One connection as the event loop sees it: its context, if still
allocated, and the external calls made so far. -/
structure World where
  conn : Option proxy_conn
  trace : List Effect
  deriving DecidableEq, Repr

/-- What the event loop can deliver to the callbacks of one connection. -/
inductive Event where
  /-- Bytes arrive from the client; the client read callback runs. -/
  | client_read (data : List Byte) (o : Oracle)
  /-- Bytes arrive from the origin; the server read callback runs. -/
  | server_read (data : List Byte)
  /-- The event callback runs for the client channel with a flag mask. -/
  | client_event (events : Nat)
  /-- The event callback runs for the server channel with a flag mask. -/
  | server_event (events : Nat)
  deriving DecidableEq, Repr

/-- The world right after `accept_cb`. -/
def World.init : World := { conn := some accept_cb, trace := [] }

/-- Record a callback's outcome. -/
def World.apply (w : World) (out : Outcome) : World :=
  { conn := out.conn, trace := w.trace ++ out.effects }

/-- Delivery of one event.  Nothing is delivered for a freed context, nor for
a server channel that does not exist, and libevent runs a read callback only
after it has read at least one byte.  `none` is a NULL dereference. -/
def step (w : World) (e : Event) : Option World :=
  match w.conn with
  | none => some w
  | some conn =>
    match e with
    | Event.client_read data o =>
      if data.isEmpty then some w
      else
        let conn := { conn with
          client_bev := { conn.client_bev with input := conn.client_bev.input ++ data } }
        (client_read_cb o conn).map w.apply
    | Event.server_read data =>
      match conn.server_bev with
      | none => some w
      | some bev =>
        if data.isEmpty then some w
        else
          let conn := { conn with server_bev := some { bev with input := bev.input ++ data } }
          (server_read_cb conn).map (fun c => { w with conn := some c })
    | Event.client_event events => some (w.apply (event_cb Channel.client events conn))
    | Event.server_event events =>
      match conn.server_bev with
      | none => some w
      | some _ => some (w.apply (event_cb Channel.server events conn))

/-- Delivery of a sequence of events, in order. -/
def run (w : World) : List Event → Option World
  | [] => some w
  | e :: es => (step w e).bind (fun w1 => run w1 es)

/-- The client bytes delivered by a sequence of events, in arrival order. -/
def client_bytes : List Event → List Byte
  | [] => []
  | Event.client_read data _ :: es => data ++ client_bytes es
  | _ :: es => client_bytes es

/-- The origin bytes delivered by a sequence of events, in arrival order. -/
def server_bytes : List Event → List Byte
  | [] => []
  | Event.server_read data :: es => data ++ server_bytes es
  | _ :: es => server_bytes es

/-- Readable events, as opposed to error/EOF notifications. -/
def Event.is_read : Event → Bool
  | Event.client_read _ _ => true
  | Event.server_read _ => true
  | _ => false

/-- An oracle under which every environment call succeeds and a NUL follows
the buffer directly. -/
def Oracle.ok : Oracle :=
  { resolves := true, connects := true, method_init := [], heap := [] }

/-- An oracle under which name resolution fails and a NUL follows the buffer
directly. -/
def Oracle.unresolved : Oracle :=
  { resolves := false, connects := true, method_init := [], heap := [] }

/-- What holds of every context the event loop can reach. -/
structure Inv (c : proxy_conn) : Prop where
  server_iff : c.server_bev.isSome ↔ c.connected ≠ 0
  pending : c.request_buffer ≠ [] → c.connected = 0
  client_input : c.client_bev.input = []
  server_input : ∀ s, c.server_bev = some s → s.input = []

/-- A context still waiting for the end of the header block, with `acc`
buffered: as `accept_cb` made it, except for `request_buffer`. -/
def pending (acc : List Byte) : proxy_conn :=
  { accept_cb with request_buffer := acc }

/-- An oracle under which every environment call succeeds and the heap holds
the given stale bytes behind the buffer. -/
def Oracle.stale (heap : List Byte) : Oracle :=
  { resolves := true, connects := true, method_init := [], heap := heap }

/-- A fresh context whose client channel has just received `data`. -/
def received (data : List Byte) : proxy_conn :=
  { accept_cb with client_bev := { input := data, output := [] } }

/-- The context of an established tunnel to `example.com:443`. -/
def tunnel : proxy_conn :=
  { client_bev := { input := [], output := established }
    server_bev := some { input := [], output := [] }
    request_buffer := []
    host := bytes "example.com"
    port := 443
    connected := 1
    ssl := 1 }

/-! ## Theorems -/

/-! ### Helper lemmas -/

/-- A bitwise or vanishes exactly when both operands do. -/
theorem lor_eq_zero (a b : Nat) : a ||| b = 0 ↔ a = 0 ∧ b = 0 := by
  constructor
  · intro h
    have key : ∀ i, a.testBit i = false ∧ b.testBit i = false := by
      intro i
      have := congrArg (fun n => n.testBit i) h
      simpa using this
    exact ⟨Nat.eq_of_testBit_eq (fun i => by simp [(key i).1]),
      Nat.eq_of_testBit_eq (fun i => by simp [(key i).2])⟩
  · rintro ⟨rfl, rfl⟩
    rfl

/-- The mask test of `event_cb` succeeds exactly when one of the two flags is
set. -/
theorem mask_test (events : Nat) :
    events &&& (BEV_EVENT_ERROR ||| BEV_EVENT_EOF) ≠ 0 ↔
      (events &&& BEV_EVENT_ERROR ≠ 0 ∨ events &&& BEV_EVENT_EOF ≠ 0) := by
  rw [Nat.and_or_distrib_left, Ne, lor_eq_zero]
  tauto

/-- A buffer in which the end of the header block is found is not empty, so
`evbuffer_pullup` returns its bytes. -/
theorem length_ne_zero_of_complete (buf : List Byte)
    (h : strstr (cstr buf) (bytes "\r\n\r\n") ≠ none) : ¬ buf.length = 0 := by
  intro h0
  have : buf = [] := List.length_eq_zero.1 h0
  subst this
  exact h (by decide)

/-- An occurrence in a string is an occurrence in every extension of it. -/
theorem strstr_append_right (a x needle : List Byte) (h : strstr a needle ≠ none) :
    strstr (a ++ x) needle ≠ none := by
  induction a with
  | nil =>
    cases needle with
    | nil => cases x <;> simp [strstr]
    | cons n ns => simp [strstr] at h
  | cons c a ih =>
    simp only [strstr] at h
    simp only [List.cons_append, strstr]
    by_cases hp : needle.isPrefixOf (c :: a) = true
    · have hp2 : needle.isPrefixOf (c :: (a ++ x)) = true := by
        rw [List.isPrefixOf_iff_prefix] at hp ⊢
        exact hp.trans (List.prefix_append (c :: a) x)
      simp [hp2]
    · simp only [hp, Bool.false_eq_true, if_false] at h
      split
      · simp
      · exact ih h

/-- The C string of a buffer is the start of the C string the parser reads,
whatever the heap holds behind the buffer. -/
theorem cstr_append_heap (buf heap : List Byte) : ∃ x, cstr (buf ++ heap) = cstr buf ++ x := by
  unfold cstr
  rw [List.takeWhile_append]
  split
  · rename_i h
    refine ⟨List.takeWhile (fun c => c != 0) heap, ?_⟩
    have : List.takeWhile (fun c => c != 0) buf = buf := by
      have hpre := List.takeWhile_prefix (fun c => c != 0) (l := buf)
      exact hpre.eq_of_length h
    rw [this]
  · exact ⟨[], by simp⟩

/-- A header end inside the buffer is found by the scan, whatever the heap
holds behind the buffer. -/
theorem complete_with_heap (buf heap needle : List Byte)
    (h : strstr (cstr buf) needle ≠ none) : strstr (cstr (buf ++ heap)) needle ≠ none := by
  obtain ⟨x, hx⟩ := cstr_append_heap buf heap
  rw [hx]
  exact strstr_append_right _ _ _ h

/-- The context made by `accept_cb` satisfies `Inv`. -/
theorem Inv_accept_cb : Inv accept_cb := by
  constructor <;> simp [accept_cb, bufferevent_socket_new]

/-- Every event keeps the event loop out of NULL dereferences and preserves
`Inv`. -/
theorem Inv_step (c : proxy_conn) (tr : List Effect) (e : Event) (h : Inv c) :
    ∃ w, step { conn := some c, trace := tr } e = some w ∧ ∀ c1, w.conn = some c1 → Inv c1 := by
  have hsame : ∀ c1, (World.mk (some c) tr).conn = some c1 → Inv c1 := by
    intro c1 hc1
    simp only [Option.some.injEq] at hc1
    subst hc1
    exact h
  obtain ⟨h1, h2, h3, h4⟩ := h
  cases e with
  | client_read data o =>
    cases data with
    | nil => exact ⟨_, rfl, hsame⟩
    | cons d ds =>
      by_cases hc : c.connected = 0
      · have hs : c.server_bev = none := by
          cases hsb : c.server_bev with
          | none => rfl
          | some s => exact absurd hc (h1.1 (by simp [hsb]))
        have hlen : ¬ (c.request_buffer ++ (c.client_bev.input ++ d :: ds)).length = 0 := by
          simp
        simp only [step, List.isEmpty_cons, Bool.false_eq_true, if_false, client_read_cb, hc,
          if_true, hlen]
        split
        · refine ⟨_, rfl, ?_⟩
          intro c1 hc1
          simp only [World.apply, Option.some.injEq] at hc1
          subst hc1
          constructor <;> simp [hs, hc]
        · split
          · cases hr : o.resolves <;> cases hk : o.connects <;>
              simp only [Bool.not_true, Bool.not_false, if_true, Bool.false_eq_true, if_false,
                Option.map_some'] <;>
              refine ⟨_, rfl, ?_⟩ <;>
              intro c1 hc1 <;>
              simp only [World.apply, Option.some.injEq, reduceCtorEq] at hc1
            subst hc1
            constructor <;> simp [bufferevent_socket_new]
          · split
            · refine ⟨_, rfl, ?_⟩
              intro c1 hc1
              simp [World.apply] at hc1
            · split <;> simp only [connect_to_server] <;>
              cases hr : o.resolves <;>
                simp only [Bool.not_true, Bool.not_false, if_true, Bool.false_eq_true, if_false,
                  Option.map_some'] <;>
                refine ⟨_, rfl, ?_⟩ <;>
                intro c1 hc1 <;>
                simp only [World.apply, Option.some.injEq, reduceCtorEq] at hc1 <;>
                subst hc1 <;>
                constructor <;> simp [bufferevent_socket_new]
      · obtain ⟨s, hs⟩ := Option.isSome_iff_exists.1 (h1.2 hc)
        simp only [step, List.isEmpty_cons, Bool.false_eq_true, if_false, client_read_cb, hc, hs,
          Option.map_some']
        refine ⟨_, rfl, ?_⟩
        intro c1 hc1
        simp only [World.apply, Option.some.injEq] at hc1
        subst hc1
        constructor
        · simp [hc]
        · simpa using h2
        · simp
        · simp [h4 s hs]
  | server_read data =>
    cases hs : c.server_bev with
    | none =>
      simp only [step, hs]
      exact ⟨_, rfl, hsame⟩
    | some s =>
      cases data with
      | nil =>
        simp only [step, hs, List.isEmpty_nil, if_true]
        exact ⟨_, rfl, hsame⟩
      | cons d ds =>
        simp only [step, hs, List.isEmpty_cons, Bool.false_eq_true, if_false, server_read_cb,
          Option.map_some']
        refine ⟨_, rfl, ?_⟩
        intro c1 hc1
        simp only [Option.some.injEq] at hc1
        subst hc1
        constructor
        · simpa [hs] using h1
        · simpa using h2
        · simpa using h3
        · simp
  | client_event events =>
    simp only [step, event_cb]
    split
    · refine ⟨_, rfl, ?_⟩
      intro c1 hc1
      simp [World.apply] at hc1
    · exact ⟨_, rfl, by simpa [World.apply] using hsame⟩
  | server_event events =>
    cases hs : c.server_bev with
    | none =>
      simp only [step, hs]
      exact ⟨_, rfl, hsame⟩
    | some s =>
      simp only [step, hs, event_cb]
      split
      · refine ⟨_, rfl, ?_⟩
        intro c1 hc1
        simp [World.apply] at hc1
      · exact ⟨_, rfl, by simpa [World.apply] using hsame⟩

/-- Every run from a world satisfying `Inv` ends in such a world. -/
theorem Inv_run (evs : List Event) : ∀ w : World, (∀ c, w.conn = some c → Inv c) →
    ∃ w1, run w evs = some w1 ∧ ∀ c, w1.conn = some c → Inv c := by
  induction evs with
  | nil => intro w h; exact ⟨w, rfl, h⟩
  | cons e es ih =>
    intro w h
    obtain ⟨conn, tr⟩ := w
    cases conn with
    | none =>
      have hstep : step { conn := none, trace := tr } e = some { conn := none, trace := tr } := rfl
      simp only [run, hstep, Option.some_bind]
      exact ih _ h
    | some c =>
      obtain ⟨w1, hw1, hinv⟩ := Inv_step c tr e (h c rfl)
      simp only [run, hw1, Option.some_bind]
      exact ih _ hinv

/-- The world right after `accept_cb` satisfies `Inv`. -/
theorem Inv_init : ∀ c, World.init.conn = some c → Inv c := by
  intro c hc
  simp only [World.init, Option.some.injEq] at hc
  subst hc
  exact Inv_accept_cb

/-- Every live context reachable from `accept_cb` satisfies `Inv`. -/
theorem Inv_reachable (evs : List Event) (w : World) (c : proxy_conn)
    (hrun : run World.init evs = some w) (hc : w.conn = some c) : Inv c := by
  obtain ⟨w1, hw1, hinv⟩ := Inv_run evs World.init Inv_init
  rw [hrun] at hw1
  simp only [Option.some.injEq] at hw1
  subst hw1
  exact hinv c hc

/-- Running a concatenation of event sequences. -/
theorem run_append (a b : List Event) : ∀ w : World,
    run w (a ++ b) = (run w a).bind (fun w1 => run w1 b) := by
  induction a with
  | nil => intro w; rfl
  | cons e es ih =>
    intro w
    show (step w e).bind (fun w1 => run w1 (es ++ b))
      = ((step w e).bind (fun w1 => run w1 es)).bind (fun w1 => run w1 b)
    cases step w e with
    | none => rfl
    | some w1 => exact ih w1

/-- The plain-HTTP transition of `client_read_cb` when resolution succeeds. -/
theorem plain_step (o : Oracle) (conn : proxy_conn)
    (hpre : conn.connected = 0)
    (hne : conn.request_buffer ++ conn.client_bev.input ≠ [])
    (hcomplete : strstr (cstr (conn.request_buffer ++ conn.client_bev.input ++ o.heap)) (bytes "\r\n\r\n")
      ≠ none)
    (hmethod : (scan_s 7 (cstr (conn.request_buffer ++ conn.client_bev.input ++ o.heap))).getD o.method_init
      ≠ bytes "CONNECT")
    (hhost : strstr (cstr (conn.request_buffer ++ conn.client_bev.input ++ o.heap)) (bytes "Host:") ≠ none)
    (hres : o.resolves = true) :
    ∃ host port, client_read_cb o conn
      = some { conn := some { conn with
                 client_bev := { input := [], output := conn.client_bev.output }
                 server_bev := some
                   { input := [], output := conn.request_buffer ++ conn.client_bev.input }
                 request_buffer := []
                 host := host
                 port := port
                 connected := 1 }
               effects := [Effect.getaddrinfo host (snprintf_port_str port),
                           Effect.socket_connect] } := by
  obtain ⟨t, ht⟩ := Option.ne_none_iff_exists'.1 hcomplete
  obtain ⟨hh, hhh⟩ := Option.ne_none_iff_exists'.1 hhost
  have hlen : ¬ (conn.request_buffer ++ conn.client_bev.input).length = 0 :=
    fun h0 => hne (List.length_eq_zero.1 h0)
  simp only [client_read_cb, hpre, if_true, hlen, ht, hmethod, if_false, hhh]
  split <;>
    simp only [connect_to_server, hres, Bool.not_true, Bool.false_eq_true, if_false,
      bufferevent_socket_new, List.nil_append] <;>
    exact ⟨_, _, rfl⟩

/-- The client bytes of a sequence of events, split at its first event. -/
theorem client_bytes_cons (e : Event) (es : List Event) :
    client_bytes (e :: es) = client_bytes [e] ++ client_bytes es := by
  cases e <;> simp [client_bytes]

/-- One event on a context that still waits for the header end: either it
only buffered the client bytes, or the context is now connected or gone. -/
theorem step_pending (acc : List Byte) (e : Event) (w1 : World)
    (h : step { conn := some (pending acc), trace := [] } e = some w1) :
    w1 = { conn := some (pending (acc ++ client_bytes [e])), trace := [] } ∨
      ∀ c, w1.conn = some c → c.connected ≠ 0 := by
  cases e with
  | client_read data o =>
    cases data with
    | nil =>
      left
      simp only [step, List.isEmpty_nil, if_true, Option.some.injEq] at h
      rw [← h]
      simp [client_bytes]
    | cons d ds =>
      have hlen : ¬ (acc ++ d :: ds).length = 0 := by simp
      simp only [step, List.isEmpty_cons, Bool.false_eq_true, if_false, client_read_cb, pending,
        accept_cb, bufferevent_socket_new, if_true, List.nil_append, hlen] at h
      split at h
      · left
        simp only [Option.map_some', Option.some.injEq, World.apply, List.append_nil] at h
        rw [← h]
        simp [pending, accept_cb, bufferevent_socket_new, client_bytes]
      · right
        split at h
        · cases hr : o.resolves <;> cases hk : o.connects <;>
            simp only [hr, hk, Bool.not_true, Bool.not_false, if_true, Bool.false_eq_true,
              if_false, Option.map_some', Option.some.injEq, World.apply] at h <;>
            rw [← h] <;>
            intro c hc <;>
            simp only [Option.some.injEq, reduceCtorEq] at hc
          rw [← hc]
          simp
        · split at h
          · simp only [Option.map_some', Option.some.injEq, World.apply] at h
            rw [← h]
            intro c hc
            simp at hc
          · split at h <;> simp only [connect_to_server] at h <;>
              cases hr : o.resolves <;>
              simp only [hr, Bool.not_true, Bool.not_false, if_true, Bool.false_eq_true,
                if_false, Option.map_some', Option.some.injEq, World.apply] at h <;>
              rw [← h] <;>
              intro c hc <;>
              simp only [Option.some.injEq, reduceCtorEq] at hc <;>
              rw [← hc] <;>
              simp
  | server_read data =>
    left
    simp only [step, pending, accept_cb, Option.some.injEq] at h
    rw [← h]
    simp [pending, accept_cb, client_bytes]
  | client_event events =>
    simp only [step, event_cb, World.apply, Option.some.injEq] at h
    split at h
    · right
      rw [← h]
      intro c hc
      simp at hc
    · left
      rw [← h]
      simp [client_bytes]
  | server_event events =>
    left
    simp only [step, pending, accept_cb, Option.some.injEq] at h
    rw [← h]
    simp [pending, accept_cb, client_bytes]

/-- A context that is connected or gone stays so. -/
theorem step_settled (w : World) (e : Event) (w1 : World)
    (hw : ∀ c, w.conn = some c → c.connected ≠ 0) (h : step w e = some w1) :
    ∀ c, w1.conn = some c → c.connected ≠ 0 := by
  obtain ⟨wc, tr⟩ := w
  cases wc with
  | none =>
    simp only [step, Option.some.injEq] at h
    rw [← h]
    exact hw
  | some c0 =>
    have hc0 : c0.connected ≠ 0 := hw c0 rfl
    cases e with
    | client_read data o =>
      cases data with
      | nil =>
        simp only [step, List.isEmpty_nil, if_true, Option.some.injEq] at h
        rw [← h]
        exact hw
      | cons d ds =>
        simp only [step, List.isEmpty_cons, Bool.false_eq_true, if_false, client_read_cb, hc0]
          at h
        split at h
        · simp at h
        · simp only [Option.map_some', Option.some.injEq, World.apply] at h
          rw [← h]
          intro c hc
          simp only [Option.some.injEq] at hc
          rw [← hc]
          exact hc0
    | server_read data =>
      simp only [step] at h
      split at h
      · simp only [Option.some.injEq] at h
        rw [← h]
        exact hw
      · rename_i bev hbev
        cases data with
        | nil =>
          simp only [List.isEmpty_nil, if_true, Option.some.injEq] at h
          rw [← h]
          exact hw
        | cons d ds =>
          simp only [List.isEmpty_cons, Bool.false_eq_true, if_false, server_read_cb,
            Option.map_some', Option.some.injEq] at h
          rw [← h]
          intro c hc
          simp only [Option.some.injEq] at hc
          rw [← hc]
          exact hc0
    | client_event events =>
      simp only [step, event_cb, World.apply, Option.some.injEq] at h
      split at h <;> rw [← h] <;> intro c hc <;>
        simp only [Option.some.injEq, reduceCtorEq] at hc
      rw [← hc]
      exact hc0
    | server_event events =>
      simp only [step] at h
      split at h
      · simp only [Option.some.injEq] at h
        rw [← h]
        exact hw
      · simp only [event_cb, World.apply, Option.some.injEq] at h
        split at h <;> rw [← h] <;> intro c hc <;>
          simp only [Option.some.injEq, reduceCtorEq] at hc
        rw [← hc]
        exact hc0

/-- A context that is connected or gone stays so along a run. -/
theorem run_settled (evs : List Event) : ∀ (w w1 : World),
    (∀ c, w.conn = some c → c.connected ≠ 0) → run w evs = some w1 →
    ∀ c, w1.conn = some c → c.connected ≠ 0 := by
  induction evs with
  | nil =>
    intro w w1 hw h
    simp only [run, Option.some.injEq] at h
    rw [← h]
    exact hw
  | cons e es ih =>
    intro w w1 hw h
    simp only [run] at h
    cases hstep : step w e with
    | none => simp [hstep] at h
    | some w2 =>
      simp only [hstep, Option.some_bind] at h
      exact ih w2 w1 (step_settled w e w2 hw hstep) h

/-- Along a run, a context that still waits for the header end has buffered
exactly the client bytes delivered so far and has changed nothing else. -/
theorem run_pending (evs : List Event) : ∀ (acc : List Byte) (w1 : World),
    run { conn := some (pending acc), trace := [] } evs = some w1 →
    w1 = { conn := some (pending (acc ++ client_bytes evs)), trace := [] } ∨
      ∀ c, w1.conn = some c → c.connected ≠ 0 := by
  induction evs with
  | nil =>
    intro acc w1 h
    left
    simp only [run, Option.some.injEq] at h
    rw [← h]
    simp [client_bytes]
  | cons e es ih =>
    intro acc w1 h
    simp only [run] at h
    cases hstep : step { conn := some (pending acc), trace := [] } e with
    | none => simp [hstep] at h
    | some w2 =>
      simp only [hstep, Option.some_bind] at h
      rcases step_pending acc e w2 hstep with hw2 | hw2
      · subst hw2
        rcases ih _ w1 h with h1 | h1
        · left
          rw [h1, client_bytes_cons e es, List.append_assoc]
        · exact Or.inr h1
      · exact Or.inr (run_settled es w2 w1 hw2 h)

/-- Every reachable context that is not yet connected is `accept_cb`'s with
all client bytes delivered so far in `request_buffer`, and no external call
has been made. -/
theorem reachable_unconnected (evs : List Event) (w : World) (c : proxy_conn)
    (hreach : run World.init evs = some w) (hw : w.conn = some c) (hc : c.connected = 0) :
    w = { conn := some (pending (client_bytes evs)), trace := [] } := by
  have h0 : World.init = { conn := some (pending []), trace := [] } := rfl
  rw [h0] at hreach
  rcases run_pending evs [] w hreach with h1 | h1
  · simpa using h1
  · exact absurd hc (h1 c hw)

/-- Relay mode: a sequence of readable events queues the client bytes on the
server channel and the origin bytes on the client channel, in arrival order,
and changes nothing else. -/
theorem relay_run (evs : List Event) :
    ∀ (c : proxy_conn) (s : bufferevent) (tr : List Effect),
      c.connected ≠ 0 → c.server_bev = some s → c.client_bev.input = [] → s.input = [] →
      (∀ e ∈ evs, e.is_read = true) →
      run { conn := some c, trace := tr } evs
        = some { conn := some { c with
                   client_bev :=
                     { input := [], output := c.client_bev.output ++ server_bytes evs }
                   server_bev := some { input := [], output := s.output ++ client_bytes evs } }
                 trace := tr } := by
  induction evs with
  | nil =>
    intro c s tr _ hs hci hsi _
    obtain ⟨cb, sb, rb, host, port, connected, ssl⟩ := c
    obtain ⟨ci, co⟩ := cb
    obtain ⟨si, so⟩ := s
    simp only at hs hci hsi
    subst hs hci hsi
    simp [run, client_bytes, server_bytes]
  | cons e es ih =>
    intro c s tr hc hs hci hsi hev
    have hes : ∀ e1 ∈ es, e1.is_read = true := fun e1 h1 => hev e1 (List.mem_cons_of_mem _ h1)
    have he := hev e (List.mem_cons_self _ _)
    cases e with
    | client_read data o =>
      cases data with
      | nil =>
        simp only [run, step, List.isEmpty_nil, if_true, Option.some_bind]
        refine Eq.trans (ih c s tr hc hs hci hsi hes) ?_
        simp [client_bytes, server_bytes]
      | cons d ds =>
        simp only [run, step, List.isEmpty_cons, Bool.false_eq_true, if_false, client_read_cb, hc,
          hs, Option.map_some', Option.some_bind, World.apply, List.append_nil]
        refine Eq.trans (ih _ _ tr ?_ rfl rfl ?_ hes) ?_
        · exact hc
        · exact hsi
        · simp [client_bytes, server_bytes, hci]
    | server_read data =>
      cases data with
      | nil =>
        simp only [run, step, hs, List.isEmpty_nil, if_true, Option.some_bind]
        refine Eq.trans (ih c s tr hc hs hci hsi hes) ?_
        simp [client_bytes, server_bytes]
      | cons d ds =>
        simp only [run, step, List.isEmpty_cons, Bool.false_eq_true, if_false, server_read_cb, hs,
          Option.map_some', Option.some_bind]
        refine Eq.trans (ih _ _ tr ?_ rfl ?_ rfl hes) ?_
        · exact hc
        · exact hci
        · simp [client_bytes, server_bytes, hsi]
    | client_event events => simp [Event.is_read] at he
    | server_event events => simp [Event.is_read] at he

/-- The narrowing to `int` lands in the `int` range. -/
theorem to_int_range (v : Int) : -2147483648 ≤ to_int v ∧ to_int v ≤ 2147483647 := by
  unfold to_int
  omega

/-- A value converted by `%d` is in the `int` range. -/
theorem scan_d_range (s : List Byte) (v : Int) (h : scan_d s = some v) :
    -2147483648 ≤ v ∧ v ≤ 2147483647 := by
  unfold scan_d at h
  simp only [] at h
  split_ifs at h <;>
    (have hv := Option.some.inj h
     rw [← hv]
     exact to_int_range _)

/-- The result of `atoi` is in the `int` range. -/
theorem atoi_range (s : List Byte) : -2147483648 ≤ atoi s ∧ atoi s ≤ 2147483647 := by
  unfold atoi
  cases h : scan_d s with
  | none => simp
  | some v => simpa using scan_d_range s v h

/-- A port assigned by the CONNECT `sscanf` is in the `int` range. -/
theorem sscanf_CONNECT_range (data : List Byte) (v : Int) (h : (sscanf_CONNECT data).2 = some v) :
    -2147483648 ≤ v ∧ v ≤ 2147483647 := by
  unfold sscanf_CONNECT at h
  split at h
  · simp at h
  · simp only at h
    split at h
    · simp at h
    · split at h
      · simp at h
      · exact scan_d_range _ v h

/-! ### What the parser gets right -/

/-- Ordinary format characters consume exactly themselves. -/
theorem scan_literal_append (fmt s : List Byte) : scan_literal fmt (fmt ++ s) = some s := by
  induction fmt with
  | nil => cases s <;> rfl
  | cons f fmt ih => simp [scan_literal, ih]

/-- A digit is neither white space, nor a sign, nor a colon. -/
theorem digit_facts (d : Byte) (h : isdigit d = true) :
    isspace d = false ∧ (some d == some (45 : Byte)) = false ∧
      (some d == some (43 : Byte)) = false ∧ (d == 58) = false := by
  simp only [isdigit, Bool.and_eq_true, decide_eq_true_eq] at h
  simp only [isspace, Bool.or_eq_false_iff, beq_eq_false_iff_ne, Bool.and_eq_false_imp,
    decide_eq_true_eq, decide_eq_false_iff_not, ne_eq, Option.some.injEq]
  unfold Byte at *
  omega

/-- A run of digits followed by a non-digit is converted by `%d` to its
value. -/
theorem scan_d_digits (ds rest : List Byte) (hne : ds ≠ []) (hds : ∀ d ∈ ds, isdigit d = true)
    (hrest : ∀ c, rest.head? = some c → isdigit c = false) :
    scan_d (ds ++ rest) = some (to_int (strtol_saturate (digits_value ds))) := by
  obtain ⟨d, ds1, rfl⟩ := List.exists_cons_of_ne_nil hne
  have hd : isdigit d = true := hds d (List.mem_cons_self _ _)
  obtain ⟨hsp, h45, h43, _⟩ := digit_facts d hd
  have htake : List.takeWhile isdigit (d :: ds1 ++ rest) = d :: ds1 := by
    rw [List.takeWhile_append_of_pos hds]
    cases rest with
    | nil => simp
    | cons c rest =>
      have := hrest c rfl
      simp [List.takeWhile_cons, this]
  simp only [scan_d, List.cons_append, List.dropWhile_cons, hsp, Bool.false_eq_true, if_false,
    List.head?_cons, h45, h43, Bool.or_self]
  rw [← List.cons_append, htake]
  simp

/-- The CONNECT `sscanf` on `CONNECT <host>:<digits>` followed by a non-digit:
the host is the token up to the colon and the port is the number. -/
theorem sscanf_CONNECT_with_port (h ds rest : List Byte)
    (hne : h ≠ []) (hlen : h.length ≤ 255)
    (hh : ∀ c ∈ h, c ≠ 58 ∧ isspace c = false)
    (dne : ds ≠ []) (hds : ∀ d ∈ ds, isdigit d = true)
    (hrest : ∀ c, rest.head? = some c → isdigit c = false) :
    sscanf_CONNECT (bytes "CONNECT" ++ 32 :: (h ++ 58 :: (ds ++ rest)))
      = (some h, some (to_int (strtol_saturate (digits_value ds)))) := by
  obtain ⟨a, h1, rfl⟩ := List.exists_cons_of_ne_nil hne
  obtain ⟨d, ds1, rfl⟩ := List.exists_cons_of_ne_nil dne
  have ha := hh a (List.mem_cons_self _ _)
  have hd58 := (digit_facts d (hds d (List.mem_cons_self _ _))).2.2.2
  have hsp32 : isspace 32 = true := by decide
  have htake : List.takeWhile (fun c => c != 58) (a :: h1 ++ 58 :: (d :: ds1 ++ rest)) = a :: h1 := by
    rw [List.takeWhile_append_of_pos (fun c hc => by simpa using (hh c hc).1)]
    simp
  have hscan := scan_d_digits (d :: ds1) rest (by simp) hds hrest
  simp only [sscanf_CONNECT, scan_literal_append, List.dropWhile_cons, hsp32, if_true]
  rw [show List.dropWhile isspace (a :: h1 ++ 58 :: (d :: ds1 ++ rest))
      = a :: h1 ++ 58 :: (d :: ds1 ++ rest) by
    simp [List.dropWhile_cons, ha.2]]
  rw [htake, List.take_of_length_le hlen]
  simp only [List.isEmpty_cons, Bool.false_eq_true, if_false, List.drop_left]
  simp only [List.cons_append, List.takeWhile_cons, beq_self_eq_true, if_true, hd58,
    Bool.false_eq_true, if_false, List.isEmpty_cons, List.length_singleton, List.drop_succ_cons,
    List.drop_zero]
  rw [← List.cons_append, hscan]

/-- Without a colon in the C string the CONNECT `sscanf` assigns no port. -/
theorem sscanf_CONNECT_no_colon (data : List Byte) (h : ∀ c ∈ data, c ≠ 58) :
    (sscanf_CONNECT data).2 = none := by
  have hsuffix : ∀ (fmt s r : List Byte), scan_literal fmt s = some r → ∀ c ∈ r, c ∈ s := by
    intro fmt
    induction fmt with
    | nil =>
      intro s r hr c hc
      cases s <;> simp_all [scan_literal]
    | cons f fmt ih =>
      intro s r hr c hc
      cases s with
      | nil => simp [scan_literal] at hr
      | cons x s =>
        simp only [scan_literal] at hr
        split at hr
        · exact List.mem_cons_of_mem _ (ih s r hr c hc)
        · simp at hr
  unfold sscanf_CONNECT
  split
  · rfl
  · rename_i r1 hr1
    have hr : ∀ c ∈ List.dropWhile isspace r1, c ≠ 58 := fun c hc =>
      h c (hsuffix _ _ _ hr1 c ((List.dropWhile_sublist _).subset hc))
    have htw : List.takeWhile (fun c => c != 58) (List.dropWhile isspace r1)
        = List.dropWhile isspace r1 :=
      List.takeWhile_eq_self_iff.2 (fun c hc => by simpa using hr c hc)
    simp only [htw]
    split
    · rfl
    · have hcol : List.takeWhile (fun c => c == 58)
          (List.drop (List.take 255 (List.dropWhile isspace r1)).length
            (List.dropWhile isspace r1)) = [] := by
        cases hdrop : List.drop (List.take 255 (List.dropWhile isspace r1)).length
            (List.dropWhile isspace r1) with
        | nil => rfl
        | cons x xs =>
          have hx : x ∈ List.dropWhile isspace r1 :=
            List.mem_of_mem_drop (by rw [hdrop]; exact List.mem_cons_self _ _)
          have := hr x hx
          simp [List.takeWhile_cons, this]
      rw [hcol]
      rfl

/-- A non-negative value that fits `int` is converted exactly. -/
theorem to_int_of_fits (n : Nat) (h : n ≤ 2147483647) :
    to_int (strtol_saturate (n : Int)) = n := by
  unfold to_int strtol_saturate
  split_ifs <;> omega

/-- C `strchr` finds the first colon after a colon-free stretch. -/
theorem strchr_append_colon (h1 rest : List Byte) (h : ∀ c ∈ h1, c ≠ 58) :
    strchr (h1 ++ 58 :: rest) 58 = some (58 :: rest) := by
  induction h1 with
  | nil => simp [strchr]
  | cons a h1 ih =>
    have ha : (a == 58) = false := by simpa using h a (List.mem_cons_self _ _)
    simp only [List.cons_append, strchr, ha, Bool.false_eq_true, if_false]
    exact ih (fun c hc => h c (List.mem_cons_of_mem _ hc))

/-- C `strchr` on a string without the character. -/
theorem strchr_eq_none (s : List Byte) (h : ∀ c ∈ s, c ≠ 58) : strchr s 58 = none := by
  induction s with
  | nil => rfl
  | cons a s ih =>
    have ha : (a == 58) = false := by simpa using h a (List.mem_cons_self _ _)
    simp only [strchr, ha, Bool.false_eq_true, if_false]
    exact ih (fun c hc => h c (List.mem_cons_of_mem _ hc))

/-- The `%255s` conversion after `Host:` and its spaces reads the host token:
the bytes up to the next white space. -/
theorem scan_s_token (n : Nat) (h rest : List Byte) (w : Byte)
    (hne : h ≠ []) (hlen : h.length ≤ 255) (hh : ∀ c ∈ h, isspace c = false)
    (hw : isspace w = true) :
    scan_s 255 (List.dropWhile (fun c => c == 32) (List.replicate n 32 ++ (h ++ w :: rest)))
      = some h := by
  obtain ⟨a, h1, rfl⟩ := List.exists_cons_of_ne_nil hne
  have ha := hh a (List.mem_cons_self _ _)
  have ha32 : (a == 32) = false := by
    cases hq : a == 32 with
    | false => rfl
    | true =>
      have : a = 32 := by simpa using hq
      subst this
      exact absurd ha (by decide)
  have hdrop : List.dropWhile (fun c => c == 32) (List.replicate n 32 ++ (a :: h1 ++ w :: rest))
      = a :: h1 ++ w :: rest := by
    rw [List.dropWhile_append_of_pos (fun c hc => by
      have := List.eq_of_mem_replicate hc
      subst this
      rfl)]
    simp [List.dropWhile_cons, ha32]
  have htake : List.takeWhile (fun c => !isspace c) (a :: h1 ++ w :: rest) = a :: h1 := by
    rw [List.takeWhile_append_of_pos (fun c hc => by simp [hh c hc])]
    simp [List.takeWhile_cons, hw]
  rw [hdrop]
  simp only [scan_s, List.cons_append, List.dropWhile_cons, ha, Bool.false_eq_true, if_false,
    List.isEmpty_cons]
  rw [← List.cons_append, htake, List.take_of_length_le hlen]

/-- What the code does by design behind C4: when the bytes `Host:` occur
nowhere in the string the scan reads for a complete non-CONNECT request,
`client_read_cb` destroys the context, calls neither the resolver nor the
connector and writes nothing to the client. -/
theorem no_Host_bytes_closes (o : Oracle) (conn : proxy_conn)
    (hpre : conn.connected = 0)
    (hne : conn.request_buffer ++ conn.client_bev.input ≠ [])
    (hcomplete : strstr (cstr (conn.request_buffer ++ conn.client_bev.input ++ o.heap)) (bytes "\r\n\r\n")
      ≠ none)
    (hmethod : (scan_s 7 (cstr (conn.request_buffer ++ conn.client_bev.input ++ o.heap))).getD o.method_init
      ≠ bytes "CONNECT")
    (hhost : strstr (cstr (conn.request_buffer ++ conn.client_bev.input ++ o.heap)) (bytes "Host:") = none) :
    client_read_cb o conn
      = some { conn := none
               effects :=
                 [Effect.bufferevent_free Channel.client
                    { input := [], output := conn.client_bev.output }]
                 ++ (conn.server_bev.map (Effect.bufferevent_free Channel.server)).toList
                 ++ [Effect.evbuffer_free (conn.request_buffer ++ conn.client_bev.input),
                     Effect.free] } := by
  obtain ⟨t, ht⟩ := Option.ne_none_iff_exists'.1 hcomplete
  have hlen : ¬ (conn.request_buffer ++ conn.client_bev.input).length = 0 :=
    fun h0 => hne (List.length_eq_zero.1 h0)
  simp only [client_read_cb, hpre, if_true, hlen, ht, hmethod, if_false, hhost]
  cases hs : conn.server_bev <;> simp [close_connection, hs]

/-- What the code does by design behind C1: when the first occurrence of
`Host:` in a complete non-CONNECT request is followed by spaces and a token
`h` without colon (at most 255 bytes, ended by white space), the resolver is
called for `h`, port 80. -/
theorem Host_value_without_port (o : Oracle) (conn : proxy_conn) (n : Nat)
    (h rest : List Byte) (w : Byte)
    (hpre : conn.connected = 0)
    (hne0 : conn.request_buffer ++ conn.client_bev.input ≠ [])
    (hcomplete : strstr (cstr (conn.request_buffer ++ conn.client_bev.input ++ o.heap)) (bytes "\r\n\r\n")
      ≠ none)
    (hmethod : (scan_s 7 (cstr (conn.request_buffer ++ conn.client_bev.input ++ o.heap))).getD o.method_init
      ≠ bytes "CONNECT")
    (hhost : strstr (cstr (conn.request_buffer ++ conn.client_bev.input ++ o.heap)) (bytes "Host:")
      = some (bytes "Host:" ++ (List.replicate n 32 ++ (h ++ w :: rest))))
    (hne : h ≠ []) (hlen : h.length ≤ 255)
    (hh : ∀ c ∈ h, isspace c = false ∧ c ≠ 58) (hw : isspace w = true) :
    ∃ out tail, client_read_cb o conn = some out ∧
      out.effects = Effect.getaddrinfo h (bytes "80") :: tail ∧
      ∀ c, out.conn = some c → c.host = h ∧ c.port = 80 := by
  obtain ⟨t, ht⟩ := Option.ne_none_iff_exists'.1 hcomplete
  have hlen0 : ¬ (conn.request_buffer ++ conn.client_bev.input).length = 0 :=
    fun h0 => hne0 (List.length_eq_zero.1 h0)
  have htok := scan_s_token n h rest w hne hlen (fun c hc => (hh c hc).1) hw
  have hdrop5 : List.drop 5 (bytes "Host:" ++ (List.replicate n 32 ++ (h ++ w :: rest)))
      = List.replicate n 32 ++ (h ++ w :: rest) := by
    show List.drop (bytes "Host:").length _ = _
    exact List.drop_left _ _
  have hchr := strchr_eq_none h (fun c hc => (hh c hc).2)
  simp only [client_read_cb, hpre, if_true, hlen0, ht, hmethod, if_false, hhost, hdrop5, htok,
    Option.getD_some, hchr, connect_to_server]
  cases hr : o.resolves <;>
    simp only [Bool.not_true, Bool.not_false, if_true, Bool.false_eq_true, if_false] <;>
    refine ⟨_, _, rfl, rfl, ?_⟩ <;>
    intro c hc <;>
    simp only [Option.some.injEq, reduceCtorEq] at hc
  subst hc
  exact ⟨rfl, rfl⟩

/-- What the code does by design behind C1: when the first occurrence of
`Host:` in a complete non-CONNECT request is followed by spaces and a token
`h:digits` (at most 255 bytes, ended by white space) whose number fits
`int`, the resolver is called for `h` and that port. -/
theorem Host_value_with_port (o : Oracle) (conn : proxy_conn) (n : Nat)
    (h ds rest : List Byte) (w : Byte)
    (hpre : conn.connected = 0)
    (hne0 : conn.request_buffer ++ conn.client_bev.input ≠ [])
    (hcomplete : strstr (cstr (conn.request_buffer ++ conn.client_bev.input ++ o.heap)) (bytes "\r\n\r\n")
      ≠ none)
    (hmethod : (scan_s 7 (cstr (conn.request_buffer ++ conn.client_bev.input ++ o.heap))).getD o.method_init
      ≠ bytes "CONNECT")
    (hhost : strstr (cstr (conn.request_buffer ++ conn.client_bev.input ++ o.heap)) (bytes "Host:")
      = some (bytes "Host:" ++ (List.replicate n 32 ++ ((h ++ 58 :: ds) ++ w :: rest))))
    (hlen : (h ++ 58 :: ds).length ≤ 255)
    (hh : ∀ c ∈ h, isspace c = false ∧ c ≠ 58)
    (dne : ds ≠ []) (hds : ∀ d ∈ ds, isdigit d = true) (hfit : digits_value ds ≤ 2147483647)
    (hw : isspace w = true) :
    ∃ out tail, client_read_cb o conn = some out ∧
      out.effects
        = Effect.getaddrinfo h (snprintf_port_str (digits_value ds)) :: tail ∧
      ∀ c, out.conn = some c → c.host = h ∧ c.port = digits_value ds := by
  obtain ⟨t, ht⟩ := Option.ne_none_iff_exists'.1 hcomplete
  have hlen0 : ¬ (conn.request_buffer ++ conn.client_bev.input).length = 0 :=
    fun h0 => hne0 (List.length_eq_zero.1 h0)
  have hall : ∀ c ∈ h ++ 58 :: ds, isspace c = false := by
    intro c hc
    rcases List.mem_append.1 hc with hc1 | hc1
    · exact (hh c hc1).1
    · rcases List.mem_cons.1 hc1 with hc2 | hc2
      · subst hc2
        decide
      · exact (digit_facts c (hds c hc2)).1
  have htok := scan_s_token n (h ++ 58 :: ds) rest w (by simp) hlen hall hw
  have hdrop5 : List.drop 5
      (bytes "Host:" ++ (List.replicate n 32 ++ ((h ++ 58 :: ds) ++ w :: rest)))
      = List.replicate n 32 ++ ((h ++ 58 :: ds) ++ w :: rest) := by
    show List.drop (bytes "Host:").length _ = _
    exact List.drop_left _ _
  have hchr := strchr_append_colon h ds (fun c hc => (hh c hc).2)
  have htw : List.takeWhile (fun c => c != 58) (h ++ 58 :: ds) = h := by
    rw [List.takeWhile_append_of_pos (fun c hc => by simpa using (hh c hc).2)]
    simp
  have hatoi : atoi ds = digits_value ds := by
    have := scan_d_digits ds [] dne hds (fun c hc => by simp at hc)
    rw [List.append_nil] at this
    simp [atoi, this, to_int_of_fits _ hfit]
  simp only [client_read_cb, hpre, if_true, hlen0, ht, hmethod, if_false, hhost, hdrop5, htok,
    Option.getD_some, hchr, htw, List.drop_succ_cons, List.drop_zero, hatoi, connect_to_server]
  cases hr : o.resolves <;>
    simp only [Bool.not_true, Bool.not_false, if_true, Bool.false_eq_true, if_false] <;>
    refine ⟨_, _, rfl, rfl, ?_⟩ <;>
    intro c hc <;>
    simp only [Option.some.injEq, reduceCtorEq] at hc
  subst hc
  exact ⟨rfl, rfl⟩

/-- The `%7s` conversion reads the method `CONNECT` when white space follows
it. -/
theorem scan_s_CONNECT (rest : List Byte) :
    scan_s 7 (bytes "CONNECT" ++ 32 :: rest) = some (bytes "CONNECT") := by
  have hb : bytes "CONNECT" = [67, 79, 78, 78, 69, 67, 84] := by decide
  rw [hb]
  simp [scan_s, List.dropWhile_cons, List.takeWhile_cons, isspace]

/-- What the code does by design behind C3: for a complete request where
the string the scan reads is `CONNECT <h>:<digits>` followed by a non-digit, with `h` a token of
at most 255 bytes and a non-zero number that fits `int`, the resolver is
called for `h` and that port. -/
theorem CONNECT_target_with_port (o : Oracle) (conn : proxy_conn) (h ds rest : List Byte)
    (hpre : conn.connected = 0)
    (hne0 : conn.request_buffer ++ conn.client_bev.input ≠ [])
    (hdata : cstr (conn.request_buffer ++ conn.client_bev.input ++ o.heap)
      = bytes "CONNECT" ++ 32 :: (h ++ 58 :: (ds ++ rest)))
    (hcomplete : strstr (cstr (conn.request_buffer ++ conn.client_bev.input ++ o.heap)) (bytes "\r\n\r\n")
      ≠ none)
    (hne : h ≠ []) (hlen : h.length ≤ 255)
    (hh : ∀ c ∈ h, c ≠ 58 ∧ isspace c = false)
    (dne : ds ≠ []) (hds : ∀ d ∈ ds, isdigit d = true)
    (hpos : 0 < digits_value ds) (hfit : digits_value ds ≤ 2147483647)
    (hrest : ∀ c, rest.head? = some c → isdigit c = false) :
    ∃ out tail, client_read_cb o conn = some out ∧
      out.effects = Effect.getaddrinfo h (snprintf_port_str (digits_value ds)) :: tail ∧
      ∀ c, out.conn = some c → c.host = h ∧ c.port = digits_value ds := by
  obtain ⟨t, ht⟩ := Option.ne_none_iff_exists'.1 hcomplete
  have hlen0 : ¬ (conn.request_buffer ++ conn.client_bev.input).length = 0 :=
    fun h0 => hne0 (List.length_eq_zero.1 h0)
  rw [hdata] at ht
  have hscan := sscanf_CONNECT_with_port h ds rest hne hlen hh dne hds hrest
  have hport : ((digits_value ds : Int) = 0) = False := by
    simp only [eq_iff_iff, iff_false]
    omega
  simp only [client_read_cb, hpre, if_true, hlen0, if_false, hdata, ht, scan_s_CONNECT,
    Option.getD_some, hscan, to_int_of_fits _ hfit, hport]
  cases hr : o.resolves <;> cases hk : o.connects <;>
    simp only [Bool.not_true, Bool.not_false, if_true, Bool.false_eq_true, if_false] <;>
    refine ⟨_, _, rfl, rfl, ?_⟩ <;>
    intro c hc <;>
    simp only [Option.some.injEq, reduceCtorEq] at hc
  subst hc
  exact ⟨rfl, rfl⟩

/-- What the code does by design behind C2: for a complete CONNECT request
with no colon anywhere in the string the scan reads, on a context whose
`port` is still 0, the resolver is called with port 443. -/
theorem CONNECT_port_default (o : Oracle) (conn : proxy_conn)
    (hpre : conn.connected = 0)
    (hne : conn.request_buffer ++ conn.client_bev.input ≠ []) (hfresh : conn.port = 0)
    (hcomplete : strstr (cstr (conn.request_buffer ++ conn.client_bev.input ++ o.heap)) (bytes "\r\n\r\n")
      ≠ none)
    (hmethod : (scan_s 7 (cstr (conn.request_buffer ++ conn.client_bev.input ++ o.heap))).getD o.method_init
      = bytes "CONNECT")
    (hcolon : ∀ c ∈ cstr (conn.request_buffer ++ conn.client_bev.input ++ o.heap), c ≠ 58) :
    ∃ out host tail, client_read_cb o conn = some out ∧
      out.effects = Effect.getaddrinfo host (bytes "443") :: tail ∧
      ∀ c, out.conn = some c → c.port = 443 := by
  obtain ⟨t, ht⟩ := Option.ne_none_iff_exists'.1 hcomplete
  have hlen0 : ¬ (conn.request_buffer ++ conn.client_bev.input).length = 0 :=
    fun h0 => hne (List.length_eq_zero.1 h0)
  have hscan := sscanf_CONNECT_no_colon _ hcolon
  have h443 : snprintf_port_str 443 = bytes "443" := by decide
  simp only [client_read_cb, hpre, if_true, hlen0, if_false, ht, hmethod, hscan, hfresh,
    Option.getD_none, h443]
  cases hr : o.resolves <;> cases hk : o.connects <;>
    simp only [Bool.not_true, Bool.not_false, if_true, Bool.false_eq_true, if_false] <;>
    refine ⟨_, _, _, rfl, rfl, ?_⟩ <;>
    intro c hc <;>
    simp only [Option.some.injEq, reduceCtorEq] at hc
  subst hc
  rfl

/-! ### Where a parsed port comes from -/

/-- The `%255[^:]` conversion of the CONNECT `sscanf` does not stop at white
space: a colon-free stretch `h` of at most 255 bytes after `CONNECT ` is
stored whole, followed by whatever comes next up to a colon. -/
theorem sscanf_CONNECT_host_runs_on (h x : List Byte)
    (hne : h ≠ []) (hlen : h.length ≤ 255)
    (hfirst : ∀ c, h.head? = some c → isspace c = false) (hh : ∀ c ∈ h, c ≠ 58) :
    ∃ z, (sscanf_CONNECT (bytes "CONNECT" ++ 32 :: (h ++ x))).1 = some (h ++ z) := by
  obtain ⟨a, h1, rfl⟩ := List.exists_cons_of_ne_nil hne
  have ha : isspace a = false := hfirst a rfl
  have hsp32 : isspace 32 = true := by decide
  have htake : List.takeWhile (fun c => c != 58) (a :: h1 ++ x)
      = a :: h1 ++ List.takeWhile (fun c => c != 58) x :=
    List.takeWhile_append_of_pos (fun c hc => by simpa using hh c hc)
  have h255 : List.take 255 (a :: h1 ++ List.takeWhile (fun c => c != 58) x)
      = a :: h1 ++ List.take (255 - (a :: h1).length) (List.takeWhile (fun c => c != 58) x) := by
    rw [List.take_append_eq_append_take, List.take_of_length_le hlen]
  refine ⟨List.take (255 - (a :: h1).length) (List.takeWhile (fun c => c != 58) x), ?_⟩
  simp only [sscanf_CONNECT, scan_literal_append, List.dropWhile_cons, hsp32, if_true]
  rw [show List.dropWhile isspace (a :: h1 ++ x) = a :: h1 ++ x by
    simp [List.dropWhile_cons, ha]]
  rw [htake, h255]
  simp only [List.cons_append, List.isEmpty_cons, Bool.false_eq_true, if_false]
  split <;> rfl

/-- The defect behind C3 for every content of the heap behind the buffer and
every environment: on `CONNECT example.com HTTP/1.1` without port, the host
handed to the resolver starts with `example.com HTTP/1.1\r\n\r\n`, so it is
never `example.com`. -/
theorem portless_CONNECT_host_any_heap (o : Oracle) :
    ∃ out host service rest,
      client_read_cb o (received (bytes "CONNECT example.com HTTP/1.1\r\n\r\n")) = some out ∧
      out.effects = Effect.getaddrinfo host service :: rest ∧
      bytes "example.com HTTP/1.1\r\n\r\n" <+: host ∧ host ≠ bytes "example.com" := by
  have hreq : bytes "CONNECT example.com HTTP/1.1\r\n\r\n"
      = bytes "CONNECT" ++ 32 :: bytes "example.com HTTP/1.1\r\n\r\n" := by decide
  obtain ⟨x, hx⟩ := cstr_append_heap (bytes "CONNECT example.com HTTP/1.1\r\n\r\n") o.heap
  have hc : cstr (bytes "CONNECT example.com HTTP/1.1\r\n\r\n")
      = bytes "CONNECT example.com HTTP/1.1\r\n\r\n" := by decide
  have hdata : cstr (bytes "CONNECT example.com HTTP/1.1\r\n\r\n" ++ o.heap)
      = bytes "CONNECT" ++ 32 :: (bytes "example.com HTTP/1.1\r\n\r\n" ++ x) := by
    rw [hx, hc, hreq]
    simp [List.append_assoc]
  have hcomplete : strstr (cstr (bytes "CONNECT example.com HTTP/1.1\r\n\r\n" ++ o.heap))
      (bytes "\r\n\r\n") ≠ none :=
    complete_with_heap _ _ _ (by decide)
  obtain ⟨t, ht⟩ := Option.ne_none_iff_exists'.1 hcomplete
  rw [hdata] at ht
  obtain ⟨z, hz⟩ := sscanf_CONNECT_host_runs_on (bytes "example.com HTTP/1.1\r\n\r\n") x
    (by decide) (by decide) (by decide) (by decide)
  have hlen : ¬ (bytes "CONNECT example.com HTTP/1.1\r\n\r\n").length = 0 := by decide
  have hpfx : bytes "example.com HTTP/1.1\r\n\r\n" <+: bytes "example.com HTTP/1.1\r\n\r\n" ++ z :=
    List.prefix_append _ _
  have hneq : bytes "example.com HTTP/1.1\r\n\r\n" ++ z ≠ bytes "example.com" := by
    intro h
    have := congrArg List.length h
    rw [List.length_append] at this
    have h24 : (bytes "example.com HTTP/1.1\r\n\r\n").length = 24 := by decide
    have h11 : (bytes "example.com").length = 11 := by decide
    omega
  simp only [client_read_cb, received, accept_cb, bufferevent_socket_new, if_true,
    List.nil_append, hlen, if_false, hdata, ht, scan_s_CONNECT, Option.getD_some, hz]
  cases hr : o.resolves <;> cases hk : o.connects <;>
    simp only [Bool.not_true, Bool.not_false, if_true, Bool.false_eq_true, if_false] <;>
    exact ⟨_, _, _, _, rfl, rfl, hpfx, hneq⟩

/-! ### The scenarios of the specification, evaluated -/

/-- Scenario 1: `GET / HTTP/1.1` with `Host: example.com` resolves
`example.com`, port 80, and the request bytes are queued for the origin. -/
theorem scenario_plain_get :
    step World.init
        (Event.client_read (bytes "GET / HTTP/1.1\r\nHost: example.com\r\n\r\n") Oracle.ok)
      = some
          { conn := some
              { client_bev := { input := [], output := [] }
                server_bev := some
                  { input := [], output := bytes "GET / HTTP/1.1\r\nHost: example.com\r\n\r\n" }
                request_buffer := []
                host := bytes "example.com"
                port := 80
                connected := 1
                ssl := 0 }
            trace := [Effect.getaddrinfo (bytes "example.com") (bytes "80"),
                      Effect.socket_connect] } := by
  decide

/-- A request with `Host: example.com:8080` resolves `example.com`, port
8080. -/
theorem scenario_host_with_port :
    step World.init
        (Event.client_read (bytes "GET / HTTP/1.1\r\nHost: example.com:8080\r\n\r\n") Oracle.ok)
      = some
          { conn := some
              { client_bev := { input := [], output := [] }
                server_bev := some
                  { input := []
                    output := bytes "GET / HTTP/1.1\r\nHost: example.com:8080\r\n\r\n" }
                request_buffer := []
                host := bytes "example.com"
                port := 8080
                connected := 1
                ssl := 0 }
            trace := [Effect.getaddrinfo (bytes "example.com") (bytes "8080"),
                      Effect.socket_connect] } := by
  decide

/-- Scenario 2: `CONNECT example.com:443 HTTP/1.1` sets up the tunnel and the
client is sent the success line. -/
theorem scenario_connect :
    step World.init
        (Event.client_read (bytes "CONNECT example.com:443 HTTP/1.1\r\n\r\n") Oracle.ok)
      = some
          { conn := some tunnel
            trace := [Effect.getaddrinfo (bytes "example.com") (bytes "443"),
                      Effect.socket_connect] } := by
  decide

/-- Scenario 4: `POST /x HTTP/1.1` without any header closes the connection
with no resolver call. -/
theorem scenario_no_host :
    step World.init (Event.client_read (bytes "POST /x HTTP/1.1\r\n\r\n") Oracle.ok)
      = some
          { conn := none
            trace :=
              [Effect.bufferevent_free Channel.client { input := [], output := [] },
               Effect.evbuffer_free (bytes "POST /x HTTP/1.1\r\n\r\n"),
               Effect.free] } := by
  decide

/-- Scenario 5: a CONNECT to an unresolvable host closes the connection; the
client channel is released with nothing queued on it. -/
theorem scenario_connect_unresolved :
    step World.init
        (Event.client_read (bytes "CONNECT example.com:443 HTTP/1.1\r\n\r\n") Oracle.unresolved)
      = some
          { conn := none
            trace :=
              [Effect.getaddrinfo (bytes "example.com") (bytes "443"),
               Effect.bufferevent_free Channel.client { input := [], output := [] },
               Effect.evbuffer_free (bytes "CONNECT example.com:443 HTTP/1.1\r\n\r\n"),
               Effect.free] } := by
  decide

/-- Scenario 6: once the tunnel is active, an end-of-stream event on the
server channel releases both channels and the context, and later events find
nothing to act on. -/
theorem scenario_upstream_eof :
    run World.init
        [Event.client_read (bytes "CONNECT example.com:443 HTTP/1.1\r\n\r\n") Oracle.ok,
         Event.server_event BEV_EVENT_EOF,
         Event.client_read (bytes "late") Oracle.ok,
         Event.client_event BEV_EVENT_ERROR]
      = some
          { conn := none
            trace :=
              [Effect.getaddrinfo (bytes "example.com") (bytes "443"),
               Effect.socket_connect,
               Effect.bufferevent_free Channel.client { input := [], output := established },
               Effect.bufferevent_free Channel.server { input := [], output := [] },
               Effect.evbuffer_free [],
               Effect.free] } := by
  decide

/-! ### The claims -/

/-- C1 (evaluation at the failing input): for the well-formed request
`GET / HTTP/1.1` with the header lines `X-Forwarded-Host: evil.com` and
`Host: example.com:8080`, `client_read_cb` takes the target from the first
occurrence of the bytes `Host:`, inside `X-Forwarded-Host:`; it resolves
`evil.com`, port 80, not `example.com`, port 8080. -/
theorem C1_first_Host_substring_is_parsed :
    step World.init
        (Event.client_read
          (bytes "GET / HTTP/1.1\r\nX-Forwarded-Host: evil.com\r\nHost: example.com:8080\r\n\r\n")
          Oracle.ok)
      = some
          { conn := some
              { client_bev := { input := [], output := [] }
                server_bev := some
                  { input := []
                    output := bytes
                      "GET / HTTP/1.1\r\nX-Forwarded-Host: evil.com\r\nHost: example.com:8080\r\n\r\n" }
                request_buffer := []
                host := bytes "evil.com"
                port := 80
                connected := 1
                ssl := 0 }
            trace := [Effect.getaddrinfo (bytes "evil.com") (bytes "80"), Effect.socket_connect] } := by
  decide

/-- C2 (evaluation at the failing input): for the CONNECT request
`CONNECT example.com HTTP/1.1` (no port in the target) followed by the header
line `Max-Forwards: 10`, on a fresh context, the stored `port` is 10, not 443:
the `%255[^:]` conversion runs on to the colon of the header line and `%d`
reads the header value.  The resolver is called with service `10`, whether or
not it then succeeds. -/
theorem C2_connect_port_taken_from_header :
    step World.init
        (Event.client_read (bytes "CONNECT example.com HTTP/1.1\r\nMax-Forwards: 10\r\n\r\n")
          Oracle.ok)
      = some
          { conn := some
              { client_bev :=
                  { input := [], output := bytes "HTTP/1.1 200 Connection established\r\n\r\n" }
                server_bev := some { input := [], output := [] }
                request_buffer := []
                host := bytes "example.com HTTP/1.1\r\nMax-Forwards"
                port := 10
                connected := 1
                ssl := 1 }
            trace := [Effect.getaddrinfo (bytes "example.com HTTP/1.1\r\nMax-Forwards") (bytes "10"),
                      Effect.socket_connect] }
    ∧ step World.init
        (Event.client_read (bytes "CONNECT example.com HTTP/1.1\r\nMax-Forwards: 10\r\n\r\n")
          Oracle.unresolved)
      = some
          { conn := none
            trace :=
              [Effect.getaddrinfo (bytes "example.com HTTP/1.1\r\nMax-Forwards") (bytes "10"),
               Effect.bufferevent_free Channel.client { input := [], output := [] },
               Effect.evbuffer_free
                 (bytes "CONNECT example.com HTTP/1.1\r\nMax-Forwards: 10\r\n\r\n"),
               Effect.free] } := by
  decide

/-- C3 (evaluation at the failing input): for the CONNECT request
`CONNECT example.com HTTP/1.1` with no port, the stored `host` is not
`example.com` but everything up to the end of the header block,
`example.com HTTP/1.1\r\n\r\n`: the `%255[^:]` conversion does not stop at
white space.  That string is what the resolver is called with, whether or not
it then succeeds. -/
theorem C3_connect_host_runs_past_token :
    step World.init
        (Event.client_read (bytes "CONNECT example.com HTTP/1.1\r\n\r\n") Oracle.ok)
      = some
          { conn := some
              { client_bev :=
                  { input := [], output := bytes "HTTP/1.1 200 Connection established\r\n\r\n" }
                server_bev := some { input := [], output := [] }
                request_buffer := []
                host := bytes "example.com HTTP/1.1\r\n\r\n"
                port := 443
                connected := 1
                ssl := 1 }
            trace := [Effect.getaddrinfo (bytes "example.com HTTP/1.1\r\n\r\n") (bytes "443"),
                      Effect.socket_connect] }
    ∧ step World.init
        (Event.client_read (bytes "CONNECT example.com HTTP/1.1\r\n\r\n") Oracle.unresolved)
      = some
          { conn := none
            trace :=
              [Effect.getaddrinfo (bytes "example.com HTTP/1.1\r\n\r\n") (bytes "443"),
               Effect.bufferevent_free Channel.client { input := [], output := [] },
               Effect.evbuffer_free (bytes "CONNECT example.com HTTP/1.1\r\n\r\n"),
               Effect.free] } := by
  decide

/-- C4 (evaluation at the failing input): the request `GET / HTTP/1.1` whose
only header line is `X-Forwarded-Host: evil.com` has no header line beginning
with `Host:`, yet `client_read_cb` does not close the connection: it calls the
resolver for `evil.com`, port 80, and forwards the request. -/
theorem C4_Host_substring_is_accepted :
    step World.init
        (Event.client_read (bytes "GET / HTTP/1.1\r\nX-Forwarded-Host: evil.com\r\n\r\n")
          Oracle.ok)
      = some
          { conn := some
              { client_bev := { input := [], output := [] }
                server_bev := some
                  { input := []
                    output := bytes "GET / HTTP/1.1\r\nX-Forwarded-Host: evil.com\r\n\r\n" }
                request_buffer := []
                host := bytes "evil.com"
                port := 80
                connected := 1
                ssl := 0 }
            trace := [Effect.getaddrinfo (bytes "evil.com") (bytes "80"), Effect.socket_connect] } := by
  decide

/-- C5: for a not yet connected context whose buffered bytes, together with
the bytes just read, hold the end of a header block, whatever the heap holds
behind them, when the method that `%7s` reads is `CONNECT`, resolution
succeeds and the connect is issued successfully, `client_read_cb` appends
exactly the 39 bytes `HTTP/1.1 200 Connection established\r\n\r\n` to the
client channel's output, creates the server channel with nothing queued on
it, leaves `request_buffer` empty and sets `connected = 1` and `ssl = 1`. -/
theorem C5_connect_transition (o : Oracle) (conn : proxy_conn)
    (hpre : conn.connected = 0)
    (hcomplete : strstr (cstr (conn.request_buffer ++ conn.client_bev.input)) (bytes "\r\n\r\n")
      ≠ none)
    (hmethod : (scan_s 7 (cstr (conn.request_buffer ++ conn.client_bev.input ++ o.heap))).getD o.method_init
      = bytes "CONNECT")
    (hres : o.resolves = true) (hcon : o.connects = true) :
    ∃ c, client_read_cb o conn
        = some { conn := some c
                 effects := [Effect.getaddrinfo c.host (snprintf_port_str c.port),
                             Effect.socket_connect] } ∧
      c.client_bev.output = conn.client_bev.output
        ++ bytes "HTTP/1.1 200 Connection established\r\n\r\n" ∧
      (bytes "HTTP/1.1 200 Connection established\r\n\r\n").length = 39 ∧
      c.server_bev = some { input := [], output := [] } ∧
      c.request_buffer = [] ∧ c.connected = 1 ∧ c.ssl = 1 := by
  obtain ⟨t, ht⟩ := Option.ne_none_iff_exists'.1 (complete_with_heap _ o.heap _ hcomplete)
  have hlen := length_ne_zero_of_complete _ hcomplete
  simp only [client_read_cb, hpre, if_true, hlen, if_false, ht, hmethod, hres, hcon]
  refine ⟨_, rfl, ?_, by decide, ?_, ?_, ?_, ?_⟩
  · show _ ++ List.take 39 established = _
    congr 1
  · rfl
  · simp
  · rfl
  · rfl

/-- C5 at the request `CONNECT example.com:443 HTTP/1.1` on a fresh context. -/
theorem C5_connect_transition_witness :
    ∃ c, client_read_cb Oracle.ok (received (bytes "CONNECT example.com:443 HTTP/1.1\r\n\r\n"))
        = some { conn := some c
                 effects := [Effect.getaddrinfo c.host (snprintf_port_str c.port),
                             Effect.socket_connect] } ∧
      c.client_bev.output = (received (bytes "CONNECT example.com:443 HTTP/1.1\r\n\r\n")).client_bev.output
        ++ bytes "HTTP/1.1 200 Connection established\r\n\r\n" ∧
      (bytes "HTTP/1.1 200 Connection established\r\n\r\n").length = 39 ∧
      c.server_bev = some { input := [], output := [] } ∧
      c.request_buffer = [] ∧ c.connected = 1 ∧ c.ssl = 1 :=
  C5_connect_transition Oracle.ok (received (bytes "CONNECT example.com:443 HTTP/1.1\r\n\r\n"))
    (by decide) (by decide) (by decide) (by decide) (by decide)

/-- C6: let any events lead from `accept_cb` to a context that is not yet
connected, and let the client then deliver further bytes.  If the scan finds
the end of the header block, the method is not `CONNECT`, the bytes `Host:`
are found and resolution succeeds, then `request_buffer` held exactly the
client bytes of all earlier reads, and after this read the server channel's
output is exactly those bytes followed by the bytes just read, unmodified and
in arrival order, `request_buffer` is empty, `connected = 1`, `ssl = 0`, and
nothing has been written to the client. -/
theorem C6_plain_request_forwarded (pre : List Event) (w : World) (c : proxy_conn)
    (last : List Byte) (o : Oracle)
    (hreach : run World.init pre = some w) (hw : w.conn = some c) (hpre : c.connected = 0)
    (hlast : last ≠ [])
    (hcomplete : strstr (cstr (client_bytes pre ++ last ++ o.heap)) (bytes "\r\n\r\n") ≠ none)
    (hmethod : (scan_s 7 (cstr (client_bytes pre ++ last ++ o.heap))).getD o.method_init
      ≠ bytes "CONNECT")
    (hhost : strstr (cstr (client_bytes pre ++ last ++ o.heap)) (bytes "Host:") ≠ none)
    (hres : o.resolves = true) :
    c.request_buffer = client_bytes pre ∧
    ∃ host port,
      run World.init (pre ++ [Event.client_read last o])
        = some { conn := some
                   { client_bev := { input := [], output := [] }
                     server_bev := some { input := [], output := client_bytes pre ++ last }
                     request_buffer := []
                     host := host
                     port := port
                     connected := 1
                     ssl := 0 }
                 trace := [Effect.getaddrinfo host (snprintf_port_str port),
                           Effect.socket_connect] } := by
  have hwe := reachable_unconnected pre w c hreach hw hpre
  subst hwe
  simp only [Option.some.injEq] at hw
  subst hw
  refine ⟨rfl, ?_⟩
  have hl : last.isEmpty = false := by
    cases last with
    | nil => exact absurd rfl hlast
    | cons d ds => rfl
  obtain ⟨host, port, hstep⟩ := plain_step o
    { pending (client_bytes pre) with client_bev := { input := last, output := [] } }
    rfl (fun h => hlast (List.append_eq_nil.1 h).2) hcomplete hmethod hhost hres
  refine ⟨host, port, ?_⟩
  rw [run_append, hreach]
  simp only [Option.some_bind, run, step, hl, Bool.false_eq_true, if_false, pending, accept_cb,
    bufferevent_socket_new, List.nil_append]
  simp only [pending, accept_cb, bufferevent_socket_new] at hstep
  rw [hstep]
  rfl

/-- C6 at the request `GET / HTTP/1.1`, `Host: example.com`, arriving in two
reads, with stale bytes in the heap behind the buffer at both reads. -/
theorem C6_plain_request_forwarded_witness :
    (pending (bytes "GET / HTTP/1.1\r\nHo")).request_buffer
        = client_bytes [Event.client_read (bytes "GET / HTTP/1.1\r\nHo")
            (Oracle.stale (bytes "st: old.example\r\n"))] ∧
    ∃ host port,
      run World.init
          ([Event.client_read (bytes "GET / HTTP/1.1\r\nHo")
              (Oracle.stale (bytes "st: old.example\r\n"))]
            ++ [Event.client_read (bytes "st: example.com\r\n\r\n")
                  (Oracle.stale (bytes "m:443 HTTP/1.1\r\n\r\n"))])
        = some { conn := some
                   { client_bev := { input := [], output := [] }
                     server_bev := some
                       { input := []
                         output :=
                           client_bytes [Event.client_read (bytes "GET / HTTP/1.1\r\nHo")
                             (Oracle.stale (bytes "st: old.example\r\n"))]
                           ++ bytes "st: example.com\r\n\r\n" }
                     request_buffer := []
                     host := host
                     port := port
                     connected := 1
                     ssl := 0 }
                 trace := [Effect.getaddrinfo host (snprintf_port_str port),
                           Effect.socket_connect] } :=
  C6_plain_request_forwarded
    [Event.client_read (bytes "GET / HTTP/1.1\r\nHo") (Oracle.stale (bytes "st: old.example\r\n"))]
    { conn := some (pending (bytes "GET / HTTP/1.1\r\nHo")), trace := [] }
    (pending (bytes "GET / HTTP/1.1\r\nHo"))
    (bytes "st: example.com\r\n\r\n")
    (Oracle.stale (bytes "m:443 HTTP/1.1\r\n\r\n"))
    (by decide) rfl (by decide) (by decide) (by decide) (by decide) (by decide) (by decide)

/-- C7: in every world reachable from `accept_cb` whose context has
`connected` set, a server channel exists, and every sequence of readable
events leaves the context with the client bytes appended, in arrival order,
to the server channel's output and the origin bytes appended, in arrival
order, to the client channel's output; `request_buffer`, `host`, `port`,
`connected` and `ssl` are unchanged and no external call is made. -/
theorem C7_relay_pump (pre : List Event) (w : World) (c : proxy_conn) (evs : List Event)
    (hreach : run World.init pre = some w) (hw : w.conn = some c) (hconn : c.connected ≠ 0)
    (hevs : ∀ e ∈ evs, e.is_read = true) :
    ∃ s, c.server_bev = some s ∧
      run w evs
        = some { conn := some { c with
                   client_bev :=
                     { input := [], output := c.client_bev.output ++ server_bytes evs }
                   server_bev := some { input := [], output := s.output ++ client_bytes evs } }
                 trace := w.trace } := by
  have hinv := Inv_reachable pre w c hreach hw
  obtain ⟨s, hs⟩ := Option.isSome_iff_exists.1 (hinv.server_iff.2 hconn)
  refine ⟨s, hs, ?_⟩
  obtain ⟨wc, tr⟩ := w
  simp only at hw
  subst hw
  exact relay_run evs c s tr hconn hs hinv.client_input (hinv.server_input s hs) hevs

/-- C7 at the tunnel set up by `CONNECT example.com:443 HTTP/1.1`, relaying
`ping` and `!` from the client and `pong` from the origin. -/
theorem C7_relay_pump_witness :
    ∃ s, tunnel.server_bev = some s ∧
      run { conn := some tunnel
            trace := [Effect.getaddrinfo (bytes "example.com") (bytes "443"),
                      Effect.socket_connect] }
          [Event.client_read (bytes "ping") Oracle.ok, Event.server_read (bytes "pong"),
           Event.client_read (bytes "!") Oracle.ok]
        = some { conn := some { tunnel with
                   client_bev :=
                     { input := []
                       output := tunnel.client_bev.output
                         ++ server_bytes
                           [Event.client_read (bytes "ping") Oracle.ok,
                            Event.server_read (bytes "pong"),
                            Event.client_read (bytes "!") Oracle.ok] }
                   server_bev := some
                     { input := []
                       output := s.output
                         ++ client_bytes
                           [Event.client_read (bytes "ping") Oracle.ok,
                            Event.server_read (bytes "pong"),
                            Event.client_read (bytes "!") Oracle.ok] } }
                 trace := [Effect.getaddrinfo (bytes "example.com") (bytes "443"),
                           Effect.socket_connect] } :=
  C7_relay_pump
    [Event.client_read (bytes "CONNECT example.com:443 HTTP/1.1\r\n\r\n") Oracle.ok]
    { conn := some tunnel
      trace := [Effect.getaddrinfo (bytes "example.com") (bytes "443"), Effect.socket_connect] }
    tunnel
    [Event.client_read (bytes "ping") Oracle.ok, Event.server_read (bytes "pong"),
     Event.client_read (bytes "!") Oracle.ok]
    (by decide) rfl (by decide) (by decide)

/-- C8: for every context, every flag mask and either channel, `event_cb`
destroys the whole context when the mask has the error or the end-of-stream
flag (the client channel, the server channel if present, `request_buffer` and
the record itself are released, in this order), and otherwise leaves the
context unchanged and releases nothing. -/
theorem C8_event_cb (bev : Channel) (events : Nat) (conn : proxy_conn) :
    event_cb bev events conn =
      if events &&& BEV_EVENT_ERROR ≠ 0 ∨ events &&& BEV_EVENT_EOF ≠ 0 then
        { conn := none
          effects :=
            [Effect.bufferevent_free Channel.client conn.client_bev]
            ++ (conn.server_bev.map (Effect.bufferevent_free Channel.server)).toList
            ++ [Effect.evbuffer_free conn.request_buffer, Effect.free] }
      else { conn := some conn, effects := [] } := by
  unfold event_cb
  by_cases h : events &&& BEV_EVENT_ERROR ≠ 0 ∨ events &&& BEV_EVENT_EOF ≠ 0
  · rw [if_pos ((mask_test events).2 h), if_pos h]
    cases hs : conn.server_bev <;> simp [close_connection, hs]
  · rw [if_neg (fun h1 => h ((mask_test events).1 h1)), if_neg h]

/-- C10: after any sequence of client-readable, server-readable and channel
events from `accept_cb`, with arbitrary resolver and connect outcomes, the
event loop has met no NULL dereference, and if the context has not been
destroyed then its server channel is present iff `connected` is set and its
`request_buffer` is non-empty only if `connected` is 0. -/
theorem C10_invariant (evs : List Event) :
    ∃ w, run World.init evs = some w ∧
      ∀ c, w.conn = some c →
        (c.server_bev.isSome ↔ c.connected ≠ 0) ∧ (c.request_buffer ≠ [] → c.connected = 0) := by
  obtain ⟨w, hw, hinv⟩ := Inv_run evs World.init Inv_init
  exact ⟨w, hw, fun c hc => ⟨(hinv c hc).server_iff, (hinv c hc).pending⟩⟩

end FastProxy
